import Mathlib

/-!
Shallow embedding of the HD-audio controller driver
(`src/sound/pci/hda/hda_intel.c`) and proofs about its
command-ring transport, transport-mode fallback, BDL construction and
DMA-position validation logic.

Machine integers are modelled as `Nat` with explicit reductions modulo
`2^32` at the points where the C code performs 32-bit arithmetic that
can wrap.  Hardware register reads and DMA deliveries are passed in as
explicit environment values.  The platform is 32-bit (an ARM kernel),
so C `unsigned long` is modelled as a 32-bit quantity as well.
-/

namespace HdaIntel

/-- 2^32, the modulus of the 32-bit machine arithmetic in the driver. -/
def U32 : Nat := 4294967296

/-- `#define AZX_MAX_CODECS 8` -/
def AZX_MAX_CODECS : Nat := 8

/-- `#define ICH6_MAX_CORB_ENTRIES 256` -/
def ICH6_MAX_CORB_ENTRIES : Nat := 256

/-- `#define ICH6_MAX_RIRB_ENTRIES 256` -/
def ICH6_MAX_RIRB_ENTRIES : Nat := 256

/-- `#define ICH6_RIRB_EX_UNSOL_EV (1<<4)` -/
def ICH6_RIRB_EX_UNSOL_EV : Nat := 16

/-- Pointwise update of a `Nat`-indexed map, modelling a C array store. -/
def upd (f : Nat → Nat) (i v : Nat) : Nat → Nat :=
  fun j => if j = i then v else f j

/-- The controller state relevant to the command/response transport:
the CORB write pointer, the cached RIRB pointers, the per-codec-address
pending counters (`rirb.cmds`) and last-response values (`rirb.res`),
the per-address last-command diagnostic array, and the escalation /
transport-mode flags of `struct azx` and `struct hda_bus`. -/
structure Azx where
  corbwp : Nat
  rirb_rp : Nat
  rirb_wp : Nat
  cmds : Nat → Nat
  res : Nat → Nat
  last_cmd : Nat → Nat
  single_cmd : Bool
  polling_mode : Bool
  poll_count : Nat
  msi : Bool
  probing : Bool
  rirb_error : Bool
  allow_bus_reset : Bool
  response_reset : Bool
  in_reset : Bool
  unsol_enabled : Bool

/-- `azx_command_addr`: top four bits of the 32-bit command word,
clamped to 0 if out of codec range. -/
def azx_command_addr (cmd : Nat) : Nat :=
  let addr := cmd % U32 / 2 ^ 28
  if AZX_MAX_CODECS ≤ addr then 0 else addr

/-- `azx_response_addr`: low four bits of the extended response word,
clamped to 0 if out of codec range. -/
def azx_response_addr (res : Nat) : Nat :=
  let addr := res % 16
  if AZX_MAX_CODECS ≤ addr then 0 else addr

/-- `azx_corb_send_cmd`: advance the CORB write pointer modulo the ring
capacity, bump the pending counter of the target codec address and
publish the command. -/
def azx_corb_send_cmd (chip : Azx) (val : Nat) : Azx :=
  let addr := azx_command_addr val
  let wp := (chip.corbwp + 1) % ICH6_MAX_CORB_ENTRIES
  { chip with
    corbwp := wp
    cmds := upd chip.cmds addr (chip.cmds addr + 1) }

/-- One iteration of the `azx_update_rirb` drain loop: advance the RIRB
read pointer modulo the ring capacity and process one response entry
`(res, res_ex)`.  Unsolicited events are forwarded to the external
event queue (no transport-state change); a matching response is stored
and its pending counter decremented; a spurious response is only
logged. -/
def azx_update_rirb_entry (chip : Azx) (r res_ex : Nat) : Azx :=
  let chip := { chip with rirb_rp := (chip.rirb_rp + 1) % ICH6_MAX_RIRB_ENTRIES }
  let addr := azx_response_addr res_ex
  if res_ex &&& ICH6_RIRB_EX_UNSOL_EV ≠ 0 then
    chip
  else if chip.cmds addr ≠ 0 then
    { chip with
      res := upd chip.res addr (r % U32)
      cmds := upd chip.cmds addr (chip.cmds addr - 1) }
  else
    chip

/-- `azx_update_rirb`: drain the list of newly available RIRB entries
delivered by the hardware. -/
def azx_update_rirb_list (entries : List (Nat × Nat)) (chip : Azx) : Azx :=
  entries.foldl (fun c e => azx_update_rirb_entry c e.1 e.2) chip

/-- One transport event in ring mode: a codec command sent through the
CORB, or one RIRB response entry drained by the interrupt handler. -/
inductive CmdEv where
  | send (val : Nat)
  | respond (r res_ex : Nat)

/-- Ring-mode step: `azx_send_cmd` records the command in `last_cmd`
and (with `single_cmd` clear) appends it to the CORB; a drained RIRB
entry is processed by `azx_update_rirb_entry`. -/
def ringStep (chip : Azx) : CmdEv → Azx
  | .send val =>
      azx_corb_send_cmd
        { chip with last_cmd := upd chip.last_cmd (azx_command_addr val) (val % U32) }
        val
  | .respond r res_ex => azx_update_rirb_entry chip r res_ex

/-- Run a sequence of ring-mode transport events. -/
def runRing (tr : List CmdEv) (chip : Azx) : Azx :=
  tr.foldl ringStep chip

/-- The controller state right after `azx_init_cmd_io`: both ring
pointers zero, all pending counters zero. -/
def azx_init : Azx where
  corbwp := 0
  rirb_rp := 0
  rirb_wp := 0
  cmds := fun _ => 0
  res := fun _ => 0
  last_cmd := fun _ => 0
  single_cmd := false
  polling_mode := false
  poll_count := 0
  msi := true
  probing := false
  rirb_error := false
  allow_bus_reset := false
  response_reset := false
  in_reset := false
  unsol_enabled := true

/-- The command value (as stored in the 32-bit `last_cmd` array) of the
most recent `send` to codec address `a` in a transport trace, if any. -/
def lastSentTo : List CmdEv → Nat → Option Nat
  | [], _ => none
  | CmdEv.send v :: tr, a =>
      match lastSentTo tr a with
      | some c => some c
      | none => if azx_command_addr v = a then some (v % U32) else none
  | CmdEv.respond _ _ :: tr, a => lastSentTo tr a

/-- No `send` event in the trace targets codec address `a`. -/
def noSendTo (a : Nat) (tr : List CmdEv) : Prop :=
  ∀ v, CmdEv.send v ∈ tr → azx_command_addr v ≠ a

/-- The fault-free ring discipline assumed by the round-trip claim:
every `send` happens with no unmatched send outstanding at its codec
address, and every hardware response is a solicited response
(unsolicited-event bit clear) for the pending command of its codec
address, carrying the value the hardware function `hw` assigns to that
command. -/
inductive C1Valid (hw : Nat → Nat) : Azx → List CmdEv → Prop
  | nil (s : Azx) : C1Valid hw s []
  | send (s : Azx) (val : Nat) (tr : List CmdEv) :
      s.cmds (azx_command_addr val) = 0 →
      C1Valid hw (ringStep s (.send val)) tr →
      C1Valid hw s (.send val :: tr)
  | respond (s : Azx) (res_ex : Nat) (tr : List CmdEv) :
      res_ex &&& ICH6_RIRB_EX_UNSOL_EV = 0 →
      s.cmds (azx_response_addr res_ex) ≠ 0 →
      C1Valid hw
        (ringStep s (.respond (hw (s.last_cmd (azx_response_addr res_ex))) res_ex)) tr →
      C1Valid hw s
        (.respond (hw (s.last_cmd (azx_response_addr res_ex))) res_ex :: tr)

/-- Concrete hardware response function used by witnesses. -/
def exHw : Nat → Nat := fun c => c + 1

/-- Concrete fault-free trace used by the round-trip witness: one send
to codec address 0 followed by its solicited response. -/
def exC1Tr : List CmdEv := [CmdEv.send 42, CmdEv.respond 43 0]

/-! ### Staged response retrieval and transport-mode fallback -/

/-- Environment of one `azx_rirb_get_response` call: the RIRB entries
the hardware delivers (and the driver drains, by interrupt or by
polling) during the `k`-th pass of the 1-second wait loop, and whether
`azx_acquire_irq` fails after MSI is disabled. -/
structure RecvEnv where
  entries : Nat → List (Nat × Nat)
  irq_fail : Bool

/-- The staged body of `azx_rirb_get_response`, one recursive call per
`goto again`.  `fuel` bounds the recursion depth; the escalation ladder
(forced poll while `poll_count < 2`, then permanent polling mode, then
MSI disable, then the probing check, then the fatal path) performs at
most four `goto again`s per call, so any fuel of at least 6 reproduces
the C control flow exactly. -/
def azx_rirb_get_response_go (env : RecvEnv) (addr : Nat) :
    Nat → Nat → Bool → Azx → Int × Azx
  | 0, _, _, s => (-1, s)
  | fuel + 1, k, do_poll, s =>
    let s1 := azx_update_rirb_list (env.entries k) s
    if s1.cmds addr = 0 then
      let s2 := { s1 with
        rirb_error := false
        poll_count := if do_poll then s1.poll_count else 0 }
      ((s2.res addr : Int), s2)
    else if ¬s1.polling_mode ∧ s1.poll_count < 2 then
      azx_rirb_get_response_go env addr fuel (k + 1) true
        { s1 with poll_count := s1.poll_count + 1 }
    else if ¬s1.polling_mode then
      azx_rirb_get_response_go env addr fuel (k + 1) do_poll
        { s1 with polling_mode := true }
    else if s1.msi then
      let s2 := { s1 with msi := false }
      if env.irq_fail then (-1, { s2 with rirb_error := true })
      else azx_rirb_get_response_go env addr fuel (k + 1) do_poll s2
    else if s1.probing then
      (-1, s1)
    else
      let s2 := { s1 with rirb_error := true }
      if s2.allow_bus_reset ∧ ¬s2.response_reset ∧ ¬s2.in_reset then
        (-1, { s2 with response_reset := true })
      else
        (-1, { s2 with
          single_cmd := true
          response_reset := false
          unsol_enabled := false })

/-- `azx_rirb_get_response`, started with fresh `do_poll` state. -/
def azx_rirb_get_response (env : RecvEnv) (addr : Nat) (s : Azx) : Int × Azx :=
  azx_rirb_get_response_go env addr 6 0 false s

/-- Upper bound on the number of remaining wait-loop passes of one
`azx_rirb_get_response` call, counted from the escalation flags. -/
def rirbMeasure (s : Azx) : Nat :=
  (if s.polling_mode then 0 else 3 - min s.poll_count 2) +
    (if s.msi then 1 else 0) + 1

/-- Environment of the single-command (immediate register) path:
whether the busy bit clears within the 50-iteration wait, whether the
valid bit appears within the 50-iteration wait, and the
immediate-response register value. -/
structure SendEnv where
  busy_ok : Bool
  valid_ok : Bool
  resp : Nat

/-- `azx_single_wait_for_response`: reuse `rirb.res[addr]` as the
response return slot; on timeout store the all-ones error value and
fail with `-EIO`. -/
def azx_single_wait_for_response (env : SendEnv) (addr : Nat) (s : Azx) : Int × Azx :=
  if env.valid_ok then (0, { s with res := upd s.res addr (env.resp % U32) })
  else (-5, { s with res := upd s.res addr (U32 - 1) })

/-- `azx_single_send_cmd`: clear the bus error flag, wait for the busy
bit, issue the command and wait for its response. -/
def azx_single_send_cmd (env : SendEnv) (val : Nat) (s : Azx) : Int × Azx :=
  let addr := azx_command_addr val
  let s := { s with rirb_error := false }
  if env.busy_ok then azx_single_wait_for_response env addr s
  else (-5, s)

/-- `azx_single_get_response`: pure read of the stored response. -/
def azx_single_get_response (addr : Nat) (s : Azx) : Int × Azx :=
  ((s.res addr : Int), s)

/-- Transport route taken by a dispatcher call. -/
inductive Route where
  | ring
  | single
deriving DecidableEq

/-- `azx_send_cmd`: record the command for diagnostics, then route on
the `single_cmd` transport-mode flag. -/
def azx_send_cmd (env : SendEnv) (val : Nat) (s : Azx) : Route × Int × Azx :=
  let s := { s with last_cmd := upd s.last_cmd (azx_command_addr val) (val % U32) }
  if s.single_cmd then
    let r := azx_single_send_cmd env val s
    (Route.single, r.1, r.2)
  else
    (Route.ring, 0, azx_corb_send_cmd s val)

/-- `azx_get_response`: route on the `single_cmd` transport-mode
flag. -/
def azx_get_response (env : RecvEnv) (addr : Nat) (s : Azx) : Route × Int × Azx :=
  if s.single_cmd then
    let r := azx_single_get_response addr s
    (Route.single, r.1, r.2)
  else
    let r := azx_rirb_get_response env addr s
    (Route.ring, r.1, r.2)

/-- One dispatcher operation together with its hardware environment. -/
inductive BusOp where
  | send (env : SendEnv) (val : Nat)
  | recv (env : RecvEnv) (addr : Nat)

/-- Dispatcher step: route one operation. -/
def busStep (s : Azx) : BusOp → Route × Int × Azx
  | .send env val => azx_send_cmd env val s
  | .recv env addr => azx_get_response env addr s

/-- Run a sequence of dispatcher operations, collecting the route taken
by each. -/
def runBus : List BusOp → Azx → List Route × Azx
  | [], s => ([], s)
  | op :: ops, s =>
    let r := busStep s op
    let rest := runBus ops r.2.2
    (r.1 :: rest.1, rest.2)

/-- Concrete degraded-mode start state used by witnesses. -/
def exS4 : Azx := { azx_init with single_cmd := true }

/-- Concrete dispatcher operations used by witnesses. -/
def exOps : List BusOp :=
  [BusOp.send ⟨true, true, 99⟩ 5, BusOp.recv ⟨fun _ => [], false⟩ 0]

/-- Concrete probing-phase state used by witnesses: one pending command
on every address and the probing flag set. -/
def exS5 : Azx := { azx_init with probing := true, cmds := fun _ => 1 }

/-- Concrete receive environment in which the hardware never answers. -/
def exRecvEnv : RecvEnv := ⟨fun _ => [], false⟩

/-! ### DMA position reporting and completion validation -/

/-- Position-fix mode `POS_FIX_AUTO`. -/
def POS_FIX_AUTO : Nat := 0

/-- Position-fix mode `POS_FIX_LPIB` (hardware link-position read). -/
def POS_FIX_LPIB : Nat := 1

/-- Position-fix mode `POS_FIX_POSBUF` (shared position buffer). -/
def POS_FIX_POSBUF : Nat := 2

/-- Position-fix mode `POS_FIX_VIACOMBO` (VIA compensated capture). -/
def POS_FIX_VIACOMBO : Nat := 3

/-- Position-fix mode `POS_FIX_COMBO`. -/
def POS_FIX_COMBO : Nat := 4

/-- Per-stream state used by the position logic: the direction's
position-fix mode (`chip->position_fix[stream]`), the stream direction,
and the `azx_dev` fields read by `azx_get_position`,
`azx_via_get_position` and `azx_position_ok`. -/
structure AzxPosDev where
  position_fix : Nat
  is_playback : Bool
  insufficient : Bool
  start_wallclk : Nat
  period_wallclk : Nat
  period_bytes : Nat
  bufsize : Nat
deriving DecidableEq

/-- Hardware register values observed during one position read or
completion check: the stream's link position register, the shared
position-buffer cell, the VIA capture FIFO size register, and the
24 MHz wall-clock counter. -/
structure PosEnv where
  lpib : Nat
  posbuf : Nat
  via_fifo : Nat
  wallclk : Nat
deriving DecidableEq

/-- `azx_via_get_position`: VIA capture-position compensation.  The
playback direction uses the link position directly; capture derives the
previous period boundary from link position minus FIFO occupancy and
adds the position-buffer remainder modulo the period size.  All
arithmetic is 32-bit; subtractions that can wrap add `U32` before the
reduction.  (The C code divides by `period_bytes` here; a zero period
size would fault, and the claims below always supply a nonzero one.) -/
def azx_via_get_position (env : PosEnv) (d : AzxPosDev) : Nat × AzxPosDev :=
  let link_pos := env.lpib % U32
  if d.is_playback then (link_pos, d)
  else
    let mod_dma_pos := env.posbuf % U32 % d.period_bytes
    let fifo_size := env.via_fifo % 65536
    if d.insufficient ∧ link_pos ≤ fifo_size then (0, d)
    else
      let d' := if d.insufficient then { d with insufficient := false } else d
      let mini_pos :=
        if link_pos ≤ fifo_size then (d.bufsize + link_pos + U32 - fifo_size) % U32
        else link_pos - fifo_size
      let mod_mini_pos := mini_pos % d.period_bytes
      let mod_link_pos := link_pos % d.period_bytes
      let bound_pos :=
        if fifo_size ≤ mod_link_pos then link_pos - mod_link_pos
        else if mod_mini_pos ≤ mod_dma_pos then mini_pos - mod_mini_pos
        else
          let bp := (mini_pos - mod_mini_pos + d.period_bytes) % U32
          if d.bufsize ≤ bp then 0 else bp
      ((bound_pos + mod_dma_pos) % U32, d')

/-- The mode dispatch of `azx_get_position` before the final
buffer-bound clamp: read LPIB, the VIA compensation, or the position
buffer; on a checked read in `POS_FIX_AUTO` mode an implausible
position-buffer value (zero or all-ones) permanently downgrades the
direction to `POS_FIX_LPIB` and re-reads LPIB, otherwise the direction
is permanently upgraded to `POS_FIX_POSBUF`. -/
def azx_get_position_raw (with_check : Bool) (env : PosEnv) (d : AzxPosDev) :
    Nat × AzxPosDev :=
  if d.position_fix = POS_FIX_LPIB then (env.lpib % U32, d)
  else if d.position_fix = POS_FIX_VIACOMBO then azx_via_get_position env d
  else
    let pos := env.posbuf % U32
    if with_check ∧ d.position_fix = POS_FIX_AUTO then
      if pos = 0 ∨ pos = U32 - 1 then
        (env.lpib % U32, { d with position_fix := POS_FIX_LPIB })
      else (pos, { d with position_fix := POS_FIX_POSBUF })
    else (pos, d)

/-- `azx_get_position`: the mode dispatch followed by the final clamp
`if (pos >= azx_dev->bufsize) pos = 0`. -/
def azx_get_position (with_check : Bool) (env : PosEnv) (d : AzxPosDev) :
    Nat × AzxPosDev :=
  let pd := azx_get_position_raw with_check env d
  (if pd.2.bufsize ≤ pd.1 then 0 else pd.1, pd.2)

/-- The 32-bit elapsed wall-clock value
`azx_readl(chip, WALLCLK) - azx_dev->start_wallclk`. -/
def posElapsed (env : PosEnv) (d : AzxPosDev) : Nat :=
  (env.wallclk % U32 + U32 - d.start_wallclk % U32) % U32

/-- `azx_position_ok`: decide whether a completion interrupt is
trustworthy.  Returns `-1` (bogus, drop), `0` (not yet, defer to the
retry worker) or `1` (accept, resynchronising the start-tick
baseline). -/
def azx_position_ok (bdl_pos_adj : Int) (env : PosEnv) (d : AzxPosDev) :
    Int × AzxPosDev :=
  let wallclk := posElapsed env d
  if wallclk < d.period_wallclk * 2 % U32 / 3 then (-1, d)
  else
    let pd := azx_get_position true env d
    if d.period_bytes = 0 then (-1, pd.2)
    else if wallclk < d.period_wallclk * 5 % U32 / 4 ∧
        d.period_bytes / 2 < pd.1 % d.period_bytes then
      ((if bdl_pos_adj ≠ 0 then 0 else -1), pd.2)
    else
      (1, { pd.2 with start_wallclk := (pd.2.start_wallclk + wallclk) % U32 })

/-- One `azx_get_position` call: whether it is a checked read, and the
register values it observes. -/
structure PosRead where
  with_check : Bool
  env : PosEnv

/-- State transition of one position read. -/
def posReadStep (d : AzxPosDev) (r : PosRead) : AzxPosDev :=
  (azx_get_position r.with_check r.env d).2

/-- Run a sequence of position reads. -/
def runPosReads (rs : List PosRead) (d : AzxPosDev) : AzxPosDev :=
  rs.foldl posReadStep d

/-- The sequence of position-fix modes along a sequence of reads,
starting with the initial mode. -/
def modeTrace : List PosRead → AzxPosDev → List Nat
  | [], d => [d.position_fix]
  | r :: rs, d => d.position_fix :: modeTrace rs (posReadStep d r)

/-- Number of adjacent changes in a list. -/
def numChanges : List Nat → Nat
  | [] => 0
  | [_] => 0
  | a :: b :: l => (if a = b then 0 else 1) + numChanges (b :: l)

/-! ### BDL construction and stream configuration -/

/-- `#define AZX_MAX_BDL_ENTRIES (BDL_SIZE / 16)` with `BDL_SIZE`
4096. -/
def AZX_MAX_BDL_ENTRIES : Nat := 256

/-- The `azx_dev` stream-configuration fields stored by
`azx_pcm_prepare` and mutated by `setup_bdle`. -/
structure AzxDev where
  bufsize : Nat
  period_bytes : Nat
  format_val : Nat
  frags : Nat
deriving DecidableEq

/-- Result of `setup_bdle`: the new offset with the mutated stream
state, the `-EINVAL` overflow fault (the state keeps the partially
incremented fragment count), or fuel exhaustion (unreachable for fuel
at least 257, see `setup_bdle_no_fuel_exhaustion`). -/
inductive BdlOut where
  | ok (dev : AzxDev) (ofs : Nat)
  | einval (dev : AzxDev)
  | nofuel
deriving DecidableEq

/-- `setup_bdle`: chop `size` bytes starting at `ofs` into BDL entries
bounded by the physically contiguous chunk size `chunkOf ofs size`,
failing once the fragment count would reach `AZX_MAX_BDL_ENTRIES`.
The interrupt-on-completion flag only affects the descriptor words in
memory, which the claims do not observe, so `with_ioc` is carried but
unused. -/
def setup_bdle (chunkOf : Nat → Nat → Nat) :
    Nat → AzxDev → Nat → Nat → Bool → BdlOut
  | _, dev, ofs, 0, _ => .ok dev ofs
  | 0, _, _, _, _ => .nofuel
  | fuel + 1, dev, ofs, size, with_ioc =>
    if AZX_MAX_BDL_ENTRIES ≤ dev.frags then .einval dev
    else
      setup_bdle chunkOf fuel { dev with frags := dev.frags + 1 }
        (ofs + chunkOf ofs size) (size - chunkOf ofs size) with_ioc

/-- The per-period loop of `azx_setup_periods`, counting down the
remaining periods; on the last period a configured position-correction
offset shortens the entry and suppresses its completion interrupt. -/
def bdl_loop (chunkOf : Nat → Nat → Nat) (period_bytes pos_adj : Nat)
    (npw : Bool) : Nat → AzxDev → Nat → Int × AzxDev
  | 0, dev, _ => (0, dev)
  | n + 1, dev, ofs =>
    match setup_bdle chunkOf 300 dev ofs
        (if n = 0 ∧ pos_adj ≠ 0 then period_bytes - pos_adj else period_bytes)
        (if n = 0 ∧ pos_adj ≠ 0 then false else !npw) with
    | .ok dev' ofs' => bdl_loop chunkOf period_bytes pos_adj npw n dev' ofs'
    | .einval dev' => (-22, dev')
    | .nofuel => (-22, dev)

/-- The position-correction size computation of `azx_setup_periods`:
the `bdl_pos_adj` module parameter scaled by the sample rate, rounded
up to a multiple of the parameter, converted to bytes.  `rate` is
`runtime->rate` and `frame_bytes` the byte size of one frame
(`frames_to_bytes`). -/
def azx_pos_adj_bytes (bdl_pos_adj_p : Int) (rate frame_bytes : Nat) : Nat :=
  let pos_align := bdl_pos_adj_p.toNat
  let pa1 := (pos_align * rate + 47999) / 48000
  let pa2 := if pa1 = 0 then pos_align
    else ((pa1 + pos_align - 1) / pos_align) * pos_align
  pa2 * frame_bytes

/-- Body of `azx_setup_periods` proper: reset the fragment count,
optionally lay out the position-correction prefix entry, then one entry
run per period. -/
def azx_setup_periods (chunkOf : Nat → Nat → Nat) (bdl_pos_adj_p : Int)
    (rate frame_bytes : Nat) (npw : Bool) (dev : AzxDev) : Int × AzxDev :=
  let period_bytes := dev.period_bytes
  let periods := dev.bufsize / period_bytes
  let dev0 := { dev with frags := 0 }
  if 0 < bdl_pos_adj_p then
    let pos_adj := azx_pos_adj_bytes bdl_pos_adj_p rate frame_bytes
    if period_bytes ≤ pos_adj then
      bdl_loop chunkOf period_bytes 0 npw periods dev0 0
    else
      match setup_bdle chunkOf 300 dev0 0 pos_adj !npw with
      | .ok dev2 ofs => bdl_loop chunkOf period_bytes pos_adj npw periods dev2 ofs
      | .einval dev2 => (-22, dev2)
      | .nofuel => (-22, dev0)
  else
    bdl_loop chunkOf period_bytes 0 npw periods dev0 0

/-- The configuration-storing fragment of `azx_pcm_prepare`: when the
buffer size, period size or format value changed, store the new values
into the stream state and rebuild the BDL, propagating a failure. -/
def azx_pcm_prepare (chunkOf : Nat → Nat → Nat) (bdl_pos_adj_p : Int)
    (rate frame_bytes : Nat) (npw : Bool)
    (bufsize period_bytes format_val : Nat) (dev : AzxDev) : Int × AzxDev :=
  if bufsize ≠ dev.bufsize ∨ period_bytes ≠ dev.period_bytes ∨
      format_val ≠ dev.format_val then
    let dev1 := { dev with
      bufsize := bufsize
      period_bytes := period_bytes
      format_val := format_val }
    let r := azx_setup_periods chunkOf bdl_pos_adj_p rate frame_bytes npw dev1
    if r.1 < 0 then (r.1, r.2) else (0, r.2)
  else (0, dev)

/-- Chunk-size environment of a physically contiguous buffer: every
request is satisfied in one chunk. -/
def exChunk : Nat → Nat → Nat := fun _ size => size

/-- Concrete stream states and register environments used by the
position and configuration counterexamples and witnesses. -/
def exDev7 : AzxPosDev :=
  ⟨POS_FIX_LPIB, true, false, 0, 1200, 100, 1000⟩

/-- Register values for the C7 counterexample: elapsed ticks equal one
period, link position 60. -/
def exEnv7 : PosEnv := ⟨60, 0, 0, 1200⟩

/-- Stream state for the C8 counterexample: expected period tick count
4, period 4 bytes. -/
def exDev8 : AzxPosDev := ⟨POS_FIX_LPIB, true, false, 0, 4, 4, 1000⟩

/-- Register values for the C8 counterexample: elapsed ticks 2, half
the expected period tick count. -/
def exEnv8 : PosEnv := ⟨0, 0, 0, 2⟩

/-- Stream state for the C8 witness: expected period tick count 6. -/
def exDev8w : AzxPosDev := ⟨POS_FIX_LPIB, true, false, 0, 6, 4, 16⟩

/-- Register values for the C8 witness: elapsed ticks 3. -/
def exEnv8w : PosEnv := ⟨0, 0, 0, 3⟩

/-- Auto-detect stream state for the C9 witness. -/
def exDev9 : AzxPosDev := ⟨POS_FIX_AUTO, true, false, 0, 0, 0, 16⟩

/-- Read sequence for the C9 witness: an unchecked read, then a checked
read observing a zero position buffer, then another checked read. -/
def exReads9 : List PosRead :=
  [⟨false, ⟨5, 7, 0, 0⟩⟩, ⟨true, ⟨5, 0, 0, 0⟩⟩, ⟨true, ⟨5, 9, 0, 0⟩⟩]

/-- Stream state for the C10 witness. -/
def exDev10 : AzxPosDev := ⟨POS_FIX_POSBUF, true, false, 0, 0, 8, 16⟩

/-- Register values for the C10 witness: an all-ones position-buffer
read. -/
def exEnv10 : PosEnv := ⟨3, 4294967295, 0, 0⟩

/-! ### Basic lemmas about the ring model -/

theorem upd_self (f : Nat → Nat) (i v : Nat) : upd f i v i = v := by
  simp [upd]

theorem upd_ne (f : Nat → Nat) (i v j : Nat) (h : j ≠ i) : upd f i v j = f j := by
  simp [upd, h]

theorem ringStep_send_eq (s : Azx) (val : Nat) :
    ringStep s (.send val) =
      { s with
        corbwp := (s.corbwp + 1) % ICH6_MAX_CORB_ENTRIES
        cmds := upd s.cmds (azx_command_addr val) (s.cmds (azx_command_addr val) + 1)
        last_cmd := upd s.last_cmd (azx_command_addr val) (val % U32) } := rfl

theorem ringStep_respond_eq (s : Azx) (r res_ex : Nat) :
    ringStep s (.respond r res_ex) = azx_update_rirb_entry s r res_ex := rfl

theorem runRing_nil (s : Azx) : runRing [] s = s := rfl

theorem runRing_cons (e : CmdEv) (tr : List CmdEv) (s : Azx) :
    runRing (e :: tr) s = runRing tr (ringStep s e) := rfl

theorem azx_update_rirb_entry_eq (s : Azx) (r res_ex : Nat) :
    azx_update_rirb_entry s r res_ex =
      if res_ex &&& ICH6_RIRB_EX_UNSOL_EV ≠ 0 then
        { s with rirb_rp := (s.rirb_rp + 1) % ICH6_MAX_RIRB_ENTRIES }
      else if s.cmds (azx_response_addr res_ex) ≠ 0 then
        { s with
          rirb_rp := (s.rirb_rp + 1) % ICH6_MAX_RIRB_ENTRIES
          res := upd s.res (azx_response_addr res_ex) (r % U32)
          cmds := upd s.cmds (azx_response_addr res_ex)
            (s.cmds (azx_response_addr res_ex) - 1) }
      else
        { s with rirb_rp := (s.rirb_rp + 1) % ICH6_MAX_RIRB_ENTRIES } := rfl

theorem entry_rirb_rp (s : Azx) (r res_ex : Nat) :
    (azx_update_rirb_entry s r res_ex).rirb_rp = (s.rirb_rp + 1) % ICH6_MAX_RIRB_ENTRIES := by
  rw [azx_update_rirb_entry_eq]
  by_cases h1 : res_ex &&& ICH6_RIRB_EX_UNSOL_EV ≠ 0
  · rw [if_pos h1]
  · rw [if_neg h1]
    by_cases h2 : s.cmds (azx_response_addr res_ex) ≠ 0
    · rw [if_pos h2]
    · rw [if_neg h2]

theorem entry_corbwp (s : Azx) (r res_ex : Nat) :
    (azx_update_rirb_entry s r res_ex).corbwp = s.corbwp := by
  rw [azx_update_rirb_entry_eq]
  by_cases h1 : res_ex &&& ICH6_RIRB_EX_UNSOL_EV ≠ 0
  · rw [if_pos h1]
  · rw [if_neg h1]
    by_cases h2 : s.cmds (azx_response_addr res_ex) ≠ 0
    · rw [if_pos h2]
    · rw [if_neg h2]

theorem entry_last_cmd (s : Azx) (r res_ex : Nat) :
    (azx_update_rirb_entry s r res_ex).last_cmd = s.last_cmd := by
  rw [azx_update_rirb_entry_eq]
  by_cases h1 : res_ex &&& ICH6_RIRB_EX_UNSOL_EV ≠ 0
  · rw [if_pos h1]
  · rw [if_neg h1]
    by_cases h2 : s.cmds (azx_response_addr res_ex) ≠ 0
    · rw [if_pos h2]
    · rw [if_neg h2]

theorem entry_cmds_ne (s : Azx) (r res_ex a : Nat)
    (h : azx_response_addr res_ex ≠ a) :
    (azx_update_rirb_entry s r res_ex).cmds a = s.cmds a ∧
    (azx_update_rirb_entry s r res_ex).res a = s.res a ∧
    (azx_update_rirb_entry s r res_ex).last_cmd a = s.last_cmd a := by
  rw [azx_update_rirb_entry_eq]
  by_cases h1 : res_ex &&& ICH6_RIRB_EX_UNSOL_EV ≠ 0
  · rw [if_pos h1]; exact ⟨rfl, rfl, rfl⟩
  · rw [if_neg h1]
    by_cases h2 : s.cmds (azx_response_addr res_ex) ≠ 0
    · rw [if_pos h2]
      exact ⟨upd_ne _ _ _ _ (fun hh => h hh.symm), upd_ne _ _ _ _ (fun hh => h hh.symm), rfl⟩
    · rw [if_neg h2]; exact ⟨rfl, rfl, rfl⟩

theorem entry_cmds_hit (s : Azx) (r res_ex : Nat)
    (hunsol : res_ex &&& ICH6_RIRB_EX_UNSOL_EV = 0)
    (hpend : s.cmds (azx_response_addr res_ex) ≠ 0) :
    (azx_update_rirb_entry s r res_ex).cmds (azx_response_addr res_ex) =
      s.cmds (azx_response_addr res_ex) - 1 ∧
    (azx_update_rirb_entry s r res_ex).res (azx_response_addr res_ex) = r % U32 ∧
    (azx_update_rirb_entry s r res_ex).last_cmd = s.last_cmd := by
  rw [azx_update_rirb_entry_eq, if_neg (by simp [hunsol]), if_pos hpend]
  exact ⟨upd_self _ _ _, upd_self _ _ _, rfl⟩

/-- After a fault-free trace with no sends to `a` starting with no
pending command at `a`, the fields of address `a` are untouched. -/
theorem c1_quiescent (hw : Nat → Nat) (s : Azx) (tr : List CmdEv) (a : Nat)
    (hv : C1Valid hw s tr) (hns : noSendTo a tr) (h0 : s.cmds a = 0) :
    (runRing tr s).cmds a = 0 ∧ (runRing tr s).res a = s.res a ∧
      (runRing tr s).last_cmd a = s.last_cmd a := by
  induction hv with
  | nil s => exact ⟨h0, rfl, rfl⟩
  | send s val tr hsend _ ih =>
      have hne : azx_command_addr val ≠ a := hns val (List.mem_cons_self _ _)
      have hns' : noSendTo a tr := fun v hm => hns v (List.mem_cons_of_mem _ hm)
      rw [runRing_cons]
      have hstep : (ringStep s (.send val)).cmds a = s.cmds a ∧
          (ringStep s (.send val)).res a = s.res a ∧
          (ringStep s (.send val)).last_cmd a = s.last_cmd a := by
        rw [ringStep_send_eq]
        exact ⟨upd_ne _ _ _ _ (fun hh => hne hh.symm), rfl,
               upd_ne _ _ _ _ (fun hh => hne hh.symm)⟩
      have := ih hns' (hstep.1.trans h0)
      exact ⟨this.1, this.2.1.trans hstep.2.1, this.2.2.trans hstep.2.2⟩
  | respond s res_ex tr hunsol hpend _ ih =>
      have hne : azx_response_addr res_ex ≠ a := by
        intro hh; exact hpend (hh ▸ h0)
      have hns' : noSendTo a tr := fun v hm => hns v (List.mem_cons_of_mem _ hm)
      rw [runRing_cons]
      have hstep := entry_cmds_ne s (hw (s.last_cmd (azx_response_addr res_ex))) res_ex a hne
      have := ih hns' (hstep.1.trans h0)
      exact ⟨this.1, this.2.1.trans hstep.2.1, this.2.2.trans hstep.2.2⟩

/-- After a fault-free trace with no further sends to `a` starting with
a pending command at `a`, if the pending counter has drained then the
stored response for `a` is the hardware's response to the command
recorded in `last_cmd a`. -/
theorem c1_awaiting (hw : Nat → Nat) (s : Azx) (tr : List CmdEv) (a : Nat)
    (hv : C1Valid hw s tr) (hns : noSendTo a tr) (h1 : s.cmds a ≠ 0)
    (hdone : (runRing tr s).cmds a = 0) :
    (runRing tr s).res a = hw (s.last_cmd a) % U32 := by
  induction hv with
  | nil s => exact absurd hdone h1
  | send s val tr hsend _ ih =>
      have hne : azx_command_addr val ≠ a := hns val (List.mem_cons_self _ _)
      have hns' : noSendTo a tr := fun v hm => hns v (List.mem_cons_of_mem _ hm)
      rw [runRing_cons] at hdone ⊢
      have hcm : (ringStep s (.send val)).cmds a = s.cmds a := by
        rw [ringStep_send_eq]; exact upd_ne _ _ _ _ (fun hh => hne hh.symm)
      have hlc : (ringStep s (.send val)).last_cmd a = s.last_cmd a := by
        rw [ringStep_send_eq]; exact upd_ne _ _ _ _ (fun hh => hne hh.symm)
      have := ih hns' (hcm ▸ h1) hdone
      rw [this, hlc]
  | respond s res_ex tr hunsol hpend _ ih =>
      rw [runRing_cons] at hdone ⊢
      have hns' : noSendTo a tr := fun v hm => hns v (List.mem_cons_of_mem _ hm)
      by_cases hb : azx_response_addr res_ex = a
      · subst hb
        have hstep := entry_cmds_hit s (hw (s.last_cmd (azx_response_addr res_ex)))
          res_ex hunsol hpend
        by_cases hz :
            (ringStep s
              (.respond (hw (s.last_cmd (azx_response_addr res_ex))) res_ex)).cmds
              (azx_response_addr res_ex) = 0
        · have hq := c1_quiescent hw _ tr (azx_response_addr res_ex) (by assumption) hns' hz
          rw [hq.2.1]
          exact hstep.2.1
        · have hrun := ih hns' hz hdone
          rw [hrun]
          have h2 :
              (ringStep s
                (.respond (hw (s.last_cmd (azx_response_addr res_ex))) res_ex)).last_cmd =
                s.last_cmd := hstep.2.2
          rw [h2]
      · have hstep := entry_cmds_ne s (hw (s.last_cmd (azx_response_addr res_ex)))
          res_ex a hb
        have hcm :
            (ringStep s
              (.respond (hw (s.last_cmd (azx_response_addr res_ex))) res_ex)).cmds a =
              s.cmds a := hstep.1
        have hlc :
            (ringStep s
              (.respond (hw (s.last_cmd (azx_response_addr res_ex))) res_ex)).last_cmd a =
              s.last_cmd a := hstep.2.2
        have hrun := ih hns' (hcm ▸ h1) hdone
        rw [hrun, hlc]

theorem lastSentTo_none_noSend (tr : List CmdEv) (a : Nat)
    (h : lastSentTo tr a = none) : noSendTo a tr := by
  induction tr with
  | nil => intro v hm; cases hm
  | cons e tr ih =>
      intro v hm
      cases e with
      | send w =>
          rw [lastSentTo] at h
          rcases hrec : lastSentTo tr a with _ | c
          · rw [hrec] at h
            simp only [] at h
            rcases List.mem_cons.1 hm with hv | hv
            · injection hv with hvw
              subst hvw
              intro hca
              rw [if_pos hca] at h
              exact Option.noConfusion h
            · exact ih hrec v hv
          · rw [hrec] at h
            exact Option.noConfusion h
      | respond r rex =>
          rw [lastSentTo] at h
          rcases List.mem_cons.1 hm with hv | hv
          · exact absurd hv (by simp)
          · exact ih h v hv

/-- C1: in ring mode, under the fault-free discipline (at most one
unmatched send outstanding per codec address, every delivered response
solicited and matching the pending command), a `receive(addr)` that
finds the pending counter drained returns exactly the response the
hardware produced for the most recent unmatched send to `addr`
(`azx_rirb_get_response` returns `chip->rirb.res[addr]` once
`chip->rirb.cmds[addr]` is zero). -/
theorem C1_round_trip (hw : Nat → Nat) (tr : List CmdEv) (s : Azx) (a c : Nat)
    (hv : C1Valid hw s tr) (hlast : lastSentTo tr a = some c)
    (hdone : (runRing tr s).cmds a = 0) :
    (runRing tr s).res a = hw c % U32 := by
  induction hv with
  | nil s => exact Option.noConfusion hlast
  | send s val tr hsend _ ih =>
      rw [runRing_cons] at hdone ⊢
      rw [lastSentTo] at hlast
      rcases hrec : lastSentTo tr a with _ | c'
      · rw [hrec] at hlast
        simp only [] at hlast
        by_cases hca : azx_command_addr val = a
        · rw [if_pos hca] at hlast
          have hc : c = val % U32 := (Option.some.inj hlast).symm
          subst hc
          have hns : noSendTo a tr := lastSentTo_none_noSend tr a hrec
          have h1 : (ringStep s (.send val)).cmds a ≠ 0 := by
            subst hca
            have hup : (ringStep s (.send val)).cmds (azx_command_addr val) =
                s.cmds (azx_command_addr val) + 1 := by
              rw [ringStep_send_eq]; exact upd_self _ _ _
            rw [hup]
            exact Nat.succ_ne_zero _
          have hlc : (ringStep s (.send val)).last_cmd a = val % U32 := by
            rw [ringStep_send_eq]
            subst hca
            exact upd_self _ _ _
          have := c1_awaiting hw (ringStep s (.send val)) tr a
            (by assumption) hns h1 hdone
          rwa [hlc] at this
        · rw [if_neg hca] at hlast
          exact Option.noConfusion hlast
      · rw [hrec] at hlast
        have hc : c' = c := Option.some.inj hlast
        exact ih (hc ▸ hrec) hdone
  | respond s res_ex tr hunsol hpend _ ih =>
      rw [runRing_cons] at hdone ⊢
      rw [lastSentTo] at hlast
      exact ih hlast hdone

/-- Witness for C1 at a concrete fault-free trace. -/
theorem C1_round_trip_witness :
    lastSentTo exC1Tr 0 = some 42 ∧ (runRing exC1Tr azx_init).res 0 = exHw 42 % U32 := by
  constructor
  · decide
  · refine C1_round_trip exHw exC1Tr azx_init 0 42 ?_ (by decide) (by decide)
    refine C1Valid.send azx_init 42 _ (by decide) ?_
    exact C1Valid.respond _ 0 [] (by decide) (by decide) (C1Valid.nil _)

/-- C2: a solicited response whose codec address has no pending command
leaves every pending counter and every stored last-response value
unchanged (the spurious response is only logged), and the drain step
stores a response or decrements a counter only when the unsolicited bit
is clear and the pending counter is nonzero. -/
theorem C2_spurious_response (s : Azx) (r res_ex : Nat) :
    (res_ex &&& ICH6_RIRB_EX_UNSOL_EV = 0 → s.cmds (azx_response_addr res_ex) = 0 →
      (azx_update_rirb_entry s r res_ex).cmds = s.cmds ∧
      (azx_update_rirb_entry s r res_ex).res = s.res) ∧
    ((azx_update_rirb_entry s r res_ex).cmds ≠ s.cmds ∨
        (azx_update_rirb_entry s r res_ex).res ≠ s.res →
      res_ex &&& ICH6_RIRB_EX_UNSOL_EV = 0 ∧ s.cmds (azx_response_addr res_ex) ≠ 0) := by
  rw [azx_update_rirb_entry_eq]
  by_cases h1 : res_ex &&& ICH6_RIRB_EX_UNSOL_EV ≠ 0
  · rw [if_pos h1]
    exact ⟨fun h0 _ => absurd h0 h1, fun hch => by
      rcases hch with h | h <;> exact absurd rfl h⟩
  · rw [if_neg h1]
    by_cases h2 : s.cmds (azx_response_addr res_ex) ≠ 0
    · rw [if_pos h2]
      exact ⟨fun _ h0 => absurd h0 h2, fun _ => ⟨not_not.1 h1, h2⟩⟩
    · rw [if_neg h2]
      exact ⟨fun _ _ => ⟨rfl, rfl⟩, fun hch => by
        rcases hch with h | h <;> exact absurd rfl h⟩

/-- Witness for C2 at a concrete spurious response. -/
theorem C2_spurious_response_witness :
    (azx_update_rirb_entry azx_init 7 0).cmds = azx_init.cmds ∧
    (azx_update_rirb_entry azx_init 7 0).res = azx_init.res :=
  (C2_spurious_response azx_init 7 0).1 (by decide) (by decide)

theorem corbwp_lt_of_run (tr : List CmdEv) (s : Azx) (h : s.corbwp < 256) :
    (runRing tr s).corbwp < 256 := by
  induction tr generalizing s with
  | nil => exact h
  | cons e tr ih =>
      rw [runRing_cons]
      refine ih _ ?_
      cases e with
      | send val =>
          rw [ringStep_send_eq]
          exact Nat.mod_lt _ (by decide)
      | respond r rex =>
          rw [ringStep_respond_eq, entry_corbwp]
          exact h

theorem rirb_rp_lt_of_run (tr : List CmdEv) (s : Azx) (h : s.rirb_rp < 256) :
    (runRing tr s).rirb_rp < 256 := by
  induction tr generalizing s with
  | nil => exact h
  | cons e tr ih =>
      rw [runRing_cons]
      refine ih _ ?_
      cases e with
      | send val =>
          rw [ringStep_send_eq]
          exact h
      | respond r rex =>
          rw [ringStep_respond_eq, entry_rirb_rp]
          exact Nat.mod_lt _ (by decide)

theorem corbwp_after_sends (val : Nat) (n : Nat) (s : Azx) (h : s.corbwp < 256) :
    (runRing (List.replicate n (CmdEv.send val)) s).corbwp = (s.corbwp + n) % 256 := by
  induction n generalizing s with
  | zero => simpa [runRing] using (Nat.mod_eq_of_lt h).symm
  | succ n ih =>
      rw [List.replicate_succ, runRing_cons]
      have hs : (ringStep s (.send val)).corbwp = (s.corbwp + 1) % 256 := rfl
      have := ih (ringStep s (.send val)) (by rw [hs]; exact Nat.mod_lt _ (by decide))
      rw [this, hs, Nat.mod_add_mod]
      ring_nf

theorem rirb_rp_after_drains (r res_ex : Nat) (n : Nat) (s : Azx) (h : s.rirb_rp < 256) :
    (runRing (List.replicate n (CmdEv.respond r res_ex)) s).rirb_rp = (s.rirb_rp + n) % 256 := by
  induction n generalizing s with
  | zero => simpa [runRing] using (Nat.mod_eq_of_lt h).symm
  | succ n ih =>
      rw [List.replicate_succ, runRing_cons]
      have hs : (ringStep s (.respond r res_ex)).rirb_rp = (s.rirb_rp + 1) % 256 := by
        rw [ringStep_respond_eq, entry_rirb_rp]
        rfl
      have := ih (ringStep s (.respond r res_ex)) (by rw [hs]; exact Nat.mod_lt _ (by decide))
      rw [this, hs, Nat.mod_add_mod]
      ring_nf

/-- C3: every state of the command ring reachable from the initialized
controller keeps the CORB write index and the RIRB read index in
`[0, 256)`, and starting from write index 0, after `256 + k` sends the
CORB write index equals `k % 256` (and after `n` sends it is
`n % 256`; the RIRB read index behaves the same under drains). -/
theorem C3_ring_index_bounds (tr : List CmdEv) (val r res_ex n k : Nat) :
    (runRing tr azx_init).corbwp < ICH6_MAX_CORB_ENTRIES ∧
    (runRing tr azx_init).rirb_rp < ICH6_MAX_RIRB_ENTRIES ∧
    (runRing (List.replicate (ICH6_MAX_CORB_ENTRIES + k) (CmdEv.send val)) azx_init).corbwp =
      k % ICH6_MAX_CORB_ENTRIES ∧
    (runRing (List.replicate n (CmdEv.send val)) azx_init).corbwp =
      n % ICH6_MAX_CORB_ENTRIES ∧
    (runRing (List.replicate n (CmdEv.respond r res_ex)) azx_init).rirb_rp =
      n % ICH6_MAX_RIRB_ENTRIES := by
  refine ⟨corbwp_lt_of_run tr azx_init (by decide),
          rirb_rp_lt_of_run tr azx_init (by decide), ?_, ?_, ?_⟩
  · rw [corbwp_after_sends val _ azx_init (by decide)]
    show (0 + (256 + k)) % 256 = k % 256
    omega
  · rw [corbwp_after_sends val _ azx_init (by decide)]
    show (0 + n) % 256 = n % 256
    rw [Nat.zero_add]
  · rw [rirb_rp_after_drains r res_ex _ azx_init (by decide)]
    show (0 + n) % 256 = n % 256
    rw [Nat.zero_add]

/-! ### C4 and C5: transport-mode fallback -/

theorem busStep_single (s : Azx) (op : BusOp) (h : s.single_cmd = true) :
    (busStep s op).1 = Route.single ∧ (busStep s op).2.2.single_cmd = true := by
  cases op with
  | send env val =>
      show (azx_send_cmd env val s).1 = Route.single ∧
        (azx_send_cmd env val s).2.2.single_cmd = true
      unfold azx_send_cmd azx_single_send_cmd azx_single_wait_for_response
      dsimp only
      rw [if_pos h]
      by_cases hb : env.busy_ok = true
      · rw [if_pos hb]
        by_cases hv : env.valid_ok = true
        · rw [if_pos hv]; exact ⟨rfl, h⟩
        · rw [if_neg hv]; exact ⟨rfl, h⟩
      · rw [if_neg hb]; exact ⟨rfl, h⟩
  | recv env addr =>
      show (azx_get_response env addr s).1 = Route.single ∧
        (azx_get_response env addr s).2.2.single_cmd = true
      unfold azx_get_response azx_single_get_response
      dsimp only
      rw [if_pos h]
      exact ⟨rfl, h⟩

/-- C4: the ring-to-single-command transition is one-directional: from
any state in which the `single_cmd` flag is set, no sequence of
`send`/`receive` dispatcher operations ever clears it, and every one of
those operations is routed to the single-command channel, never to the
ring. -/
theorem C4_single_cmd_one_way (ops : List BusOp) (s : Azx) (h : s.single_cmd = true) :
    (runBus ops s).2.single_cmd = true ∧
    ∀ r ∈ (runBus ops s).1, r = Route.single := by
  induction ops generalizing s with
  | nil => exact ⟨h, fun r hr => absurd hr (by simp [runBus])⟩
  | cons op ops ih =>
      have hstep := busStep_single s op h
      have hrec := ih (busStep s op).2.2 hstep.2
      constructor
      · show (runBus ops (busStep s op).2.2).2.single_cmd = true
        exact hrec.1
      · intro r hr
        have : r = (busStep s op).1 ∨ r ∈ (runBus ops (busStep s op).2.2).1 :=
          List.mem_cons.1 hr
        rcases this with hh | hh
        · rw [hh, hstep.1]
        · exact hrec.2 r hh

/-- Witness for C4 at a concrete degraded-mode state and operation
sequence. -/
theorem C4_single_cmd_one_way_witness :
    (runBus exOps exS4).2.single_cmd = true :=
  (C4_single_cmd_one_way exOps exS4 rfl).1

theorem rirb_go_probing (env : RecvEnv) (addr : Nat)
    (henv : ∀ j, env.entries j = []) (hirq : env.irq_fail = false) :
    ∀ fuel k do_poll (s : Azx), rirbMeasure s ≤ fuel → s.probing = true →
      s.cmds addr ≠ 0 →
      (azx_rirb_get_response_go env addr fuel k do_poll s).1 = -1 ∧
      (azx_rirb_get_response_go env addr fuel k do_poll s).2.rirb_error = s.rirb_error ∧
      (azx_rirb_get_response_go env addr fuel k do_poll s).2.response_reset =
        s.response_reset ∧
      (azx_rirb_get_response_go env addr fuel k do_poll s).2.single_cmd = s.single_cmd := by
  intro fuel
  induction fuel with
  | zero =>
      intro k do_poll s hm _ _
      exact absurd hm (by unfold rirbMeasure; omega)
  | succ fuel ih =>
      intro k do_poll s hm hp hc
      have hs1 : azx_update_rirb_list (env.entries k) s = s := by rw [henv k]; rfl
      have hgo :
          azx_rirb_get_response_go env addr (fuel + 1) k do_poll s =
            (if s.cmds addr = 0 then
              ((({ s with
                    rirb_error := false
                    poll_count := if do_poll then s.poll_count else 0 } : Azx).res addr : Int),
                { s with
                  rirb_error := false
                  poll_count := if do_poll then s.poll_count else 0 })
            else if ¬s.polling_mode ∧ s.poll_count < 2 then
              azx_rirb_get_response_go env addr fuel (k + 1) true
                { s with poll_count := s.poll_count + 1 }
            else if ¬s.polling_mode then
              azx_rirb_get_response_go env addr fuel (k + 1) do_poll
                { s with polling_mode := true }
            else if s.msi then
              (if env.irq_fail then (-1, { s with msi := false, rirb_error := true })
               else azx_rirb_get_response_go env addr fuel (k + 1) do_poll
                 { s with msi := false })
            else if s.probing then
              (-1, s)
            else
              (if s.allow_bus_reset ∧ ¬s.response_reset ∧ ¬s.in_reset then
                (-1, { s with rirb_error := true, response_reset := true })
              else
                (-1, { s with
                  rirb_error := true
                  single_cmd := true
                  response_reset := false
                  unsol_enabled := false }))) := by
        show azx_rirb_get_response_go env addr (fuel + 1) k do_poll s = _
        rw [azx_rirb_get_response_go]
        rw [hs1]
      rw [hgo, if_neg hc]
      by_cases h2 : ¬s.polling_mode ∧ s.poll_count < 2
      · rw [if_pos h2]
        have hm' : rirbMeasure { s with poll_count := s.poll_count + 1 } ≤ fuel := by
          have hpm : s.polling_mode = false := by
            rcases h2 with ⟨h2a, _⟩; simpa using h2a
          have hpc : s.poll_count < 2 := h2.2
          simp [rirbMeasure, hpm] at hm ⊢
          omega
        exact ih (k + 1) true _ hm' hp hc
      · rw [if_neg h2]
        by_cases h3 : ¬s.polling_mode
        · rw [if_pos h3]
          have hpm : s.polling_mode = false := by simpa using h3
          have hm' : rirbMeasure { s with polling_mode := true } ≤ fuel := by
            have hpc : ¬s.poll_count < 2 := fun hlt => h2 ⟨h3, hlt⟩
            simp [rirbMeasure, hpm] at hm ⊢
            omega
          exact ih (k + 1) do_poll _ hm' hp hc
        · rw [if_neg h3]
          by_cases h4 : s.msi = true
          · rw [if_pos h4, if_neg (by simp [hirq])]
            have hpm : s.polling_mode = true := by
              rcases hb : s.polling_mode with _ | _
              · exact absurd (by simp [hb]) h3
              · rfl
            have hm' : rirbMeasure { s with msi := false } ≤ fuel := by
              simp [rirbMeasure, hpm, h4] at hm ⊢
              omega
            exact ih (k + 1) do_poll _ hm' hp hc
          · rw [if_neg h4, if_pos hp]
            exact ⟨rfl, rfl, rfl, rfl⟩

/-- C5: a ring-mode `receive` during the codec-probing phase for which
the hardware never answers (so the pending counter stays nonzero
through the timeout, the forced poll, the polling-mode switch and the
MSI-disable stage) returns the error value without marking the ring
errored, without requesting a bus reset, and without switching to
single-command mode. -/
theorem C5_probing_fail_fast (env : RecvEnv) (addr : Nat) (s : Azx)
    (hp : s.probing = true) (henv : ∀ j, env.entries j = [])
    (hirq : env.irq_fail = false) (hc : s.cmds addr ≠ 0) :
    (azx_rirb_get_response env addr s).1 = -1 ∧
    (azx_rirb_get_response env addr s).2.rirb_error = s.rirb_error ∧
    (azx_rirb_get_response env addr s).2.response_reset = s.response_reset ∧
    (azx_rirb_get_response env addr s).2.single_cmd = s.single_cmd := by
  have hm : rirbMeasure s ≤ 6 := by
    unfold rirbMeasure
    rcases s.polling_mode <;> rcases s.msi <;> simp <;> omega
  exact rirb_go_probing env addr henv hirq 6 0 false s hm hp hc

/-- Witness for C5 at a concrete probing-phase state with a silent
codec. -/
theorem C5_probing_fail_fast_witness :
    (azx_rirb_get_response exRecvEnv 0 exS5).1 = -1 ∧
    (azx_rirb_get_response exRecvEnv 0 exS5).2.rirb_error = exS5.rirb_error ∧
    (azx_rirb_get_response exRecvEnv 0 exS5).2.response_reset = exS5.response_reset ∧
    (azx_rirb_get_response exRecvEnv 0 exS5).2.single_cmd = exS5.single_cmd :=
  C5_probing_fail_fast exRecvEnv 0 exS5 rfl (fun _ => rfl) rfl (by decide)

/-! ### C6: descriptor-list overflow and stored configuration -/

theorem setup_bdle_size_zero (chunkOf : Nat → Nat → Nat) (fuel : Nat) (dev : AzxDev)
    (ofs : Nat) (w : Bool) :
    setup_bdle chunkOf fuel dev ofs 0 w = BdlOut.ok dev ofs := by
  cases fuel <;> rfl

theorem setup_bdle_fuel_zero (chunkOf : Nat → Nat → Nat) (dev : AzxDev)
    (ofs sz : Nat) (w : Bool) :
    setup_bdle chunkOf 0 dev ofs (sz + 1) w = BdlOut.nofuel := rfl

theorem setup_bdle_succ (chunkOf : Nat → Nat → Nat) (fuel : Nat) (dev : AzxDev)
    (ofs sz : Nat) (w : Bool) :
    setup_bdle chunkOf (fuel + 1) dev ofs (sz + 1) w =
      if AZX_MAX_BDL_ENTRIES ≤ dev.frags then BdlOut.einval dev
      else setup_bdle chunkOf fuel { dev with frags := dev.frags + 1 }
        (ofs + chunkOf ofs (sz + 1)) ((sz + 1) - chunkOf ofs (sz + 1)) w := rfl

theorem setup_bdle_config (chunkOf : Nat → Nat → Nat) :
    ∀ (fuel : Nat) (dev : AzxDev) (ofs size : Nat) (w : Bool),
      (∀ dev2 ofs2, setup_bdle chunkOf fuel dev ofs size w = BdlOut.ok dev2 ofs2 →
        dev2.bufsize = dev.bufsize ∧ dev2.period_bytes = dev.period_bytes ∧
          dev2.format_val = dev.format_val) ∧
      (∀ dev2, setup_bdle chunkOf fuel dev ofs size w = BdlOut.einval dev2 →
        dev2.bufsize = dev.bufsize ∧ dev2.period_bytes = dev.period_bytes ∧
          dev2.format_val = dev.format_val) := by
  intro fuel
  induction fuel with
  | zero =>
      intro dev ofs size w
      cases size with
      | zero =>
          rw [setup_bdle_size_zero]
          constructor
          · intro dev2 ofs2 he
            injection he with h1 h2
            subst h1
            exact ⟨rfl, rfl, rfl⟩
          · intro dev2 he
            simp at he
      | succ sz =>
          rw [setup_bdle_fuel_zero]
          exact ⟨fun d2 o2 he => by simp at he, fun d2 he => by simp at he⟩
  | succ fuel ih =>
      intro dev ofs size w
      cases size with
      | zero =>
          rw [setup_bdle_size_zero]
          constructor
          · intro dev2 ofs2 he
            injection he with h1 h2
            subst h1
            exact ⟨rfl, rfl, rfl⟩
          · intro dev2 he
            simp at he
      | succ sz =>
          rw [setup_bdle_succ]
          by_cases hf : AZX_MAX_BDL_ENTRIES ≤ dev.frags
          · rw [if_pos hf]
            constructor
            · intro dev2 ofs2 he
              simp at he
            · intro dev2 he
              injection he with h1
              subst h1
              exact ⟨rfl, rfl, rfl⟩
          · rw [if_neg hf]
            have h2 := ih { dev with frags := dev.frags + 1 }
              (ofs + chunkOf ofs (sz + 1)) ((sz + 1) - chunkOf ofs (sz + 1)) w
            exact ⟨fun d2 o2 he => h2.1 d2 o2 he, fun d2 he => h2.2 d2 he⟩

theorem setup_bdle_no_fuel_exhaustion (chunkOf : Nat → Nat → Nat) :
    ∀ (fuel : Nat) (dev : AzxDev) (ofs size : Nat) (w : Bool),
      257 - dev.frags < fuel →
      setup_bdle chunkOf fuel dev ofs size w ≠ BdlOut.nofuel := by
  intro fuel
  induction fuel with
  | zero =>
      intro dev ofs size w hf
      exact absurd hf (Nat.not_lt_zero _)
  | succ fuel ih =>
      intro dev ofs size w hf
      cases size with
      | zero =>
          rw [setup_bdle_size_zero]
          simp
      | succ sz =>
          rw [setup_bdle_succ]
          by_cases hb : AZX_MAX_BDL_ENTRIES ≤ dev.frags
          · rw [if_pos hb]
            simp
          · rw [if_neg hb]
            refine ih _ _ _ _ ?_
            have hb2 : ¬256 ≤ dev.frags := hb
            show 257 - (dev.frags + 1) < fuel
            omega

theorem bdl_loop_zero (chunkOf : Nat → Nat → Nat) (pb pa : Nat) (npw : Bool)
    (dev : AzxDev) (ofs : Nat) :
    bdl_loop chunkOf pb pa npw 0 dev ofs = (0, dev) := rfl

theorem bdl_loop_succ (chunkOf : Nat → Nat → Nat) (pb pa : Nat) (npw : Bool)
    (n : Nat) (dev : AzxDev) (ofs : Nat) :
    bdl_loop chunkOf pb pa npw (n + 1) dev ofs =
      match setup_bdle chunkOf 300 dev ofs
          (if n = 0 ∧ pa ≠ 0 then pb - pa else pb)
          (if n = 0 ∧ pa ≠ 0 then false else !npw) with
      | .ok dev2 ofs2 => bdl_loop chunkOf pb pa npw n dev2 ofs2
      | .einval dev2 => (-22, dev2)
      | .nofuel => (-22, dev) := rfl

theorem bdl_loop_config (chunkOf : Nat → Nat → Nat) (pb pa : Nat) (npw : Bool) :
    ∀ (n : Nat) (dev : AzxDev) (ofs : Nat),
      (bdl_loop chunkOf pb pa npw n dev ofs).2.bufsize = dev.bufsize ∧
      (bdl_loop chunkOf pb pa npw n dev ofs).2.period_bytes = dev.period_bytes ∧
      (bdl_loop chunkOf pb pa npw n dev ofs).2.format_val = dev.format_val := by
  intro n
  induction n with
  | zero =>
      intro dev ofs
      exact ⟨rfl, rfl, rfl⟩
  | succ n ih =>
      intro dev ofs
      rw [bdl_loop_succ]
      cases hs : setup_bdle chunkOf 300 dev ofs
          (if n = 0 ∧ pa ≠ 0 then pb - pa else pb)
          (if n = 0 ∧ pa ≠ 0 then false else !npw) with
      | ok dev2 ofs2 =>
          have hc := (setup_bdle_config chunkOf 300 dev ofs _ _).1 dev2 ofs2 hs
          have hrec := ih dev2 ofs2
          exact ⟨hrec.1.trans hc.1, hrec.2.1.trans hc.2.1, hrec.2.2.trans hc.2.2⟩
      | einval dev2 =>
          exact (setup_bdle_config chunkOf 300 dev ofs _ _).2 dev2 hs
      | nofuel =>
          exact ⟨rfl, rfl, rfl⟩

theorem bdl_loop_code (chunkOf : Nat → Nat → Nat) (pb pa : Nat) (npw : Bool) :
    ∀ (n : Nat) (dev : AzxDev) (ofs : Nat),
      (bdl_loop chunkOf pb pa npw n dev ofs).1 = 0 ∨
      (bdl_loop chunkOf pb pa npw n dev ofs).1 = -22 := by
  intro n
  induction n with
  | zero =>
      intro dev ofs
      exact Or.inl rfl
  | succ n ih =>
      intro dev ofs
      rw [bdl_loop_succ]
      cases hs : setup_bdle chunkOf 300 dev ofs
          (if n = 0 ∧ pa ≠ 0 then pb - pa else pb)
          (if n = 0 ∧ pa ≠ 0 then false else !npw) with
      | ok dev2 ofs2 => exact ih dev2 ofs2
      | einval dev2 => exact Or.inr rfl
      | nofuel => exact Or.inr rfl

theorem azx_setup_periods_config (chunkOf : Nat → Nat → Nat) (p : Int)
    (rate fb : Nat) (npw : Bool) (dev : AzxDev) :
    (azx_setup_periods chunkOf p rate fb npw dev).2.bufsize = dev.bufsize ∧
    (azx_setup_periods chunkOf p rate fb npw dev).2.period_bytes = dev.period_bytes ∧
    (azx_setup_periods chunkOf p rate fb npw dev).2.format_val = dev.format_val := by
  unfold azx_setup_periods
  dsimp only
  by_cases h1 : 0 < p
  · rw [if_pos h1]
    by_cases h2 : dev.period_bytes ≤ azx_pos_adj_bytes p rate fb
    · rw [if_pos h2]
      exact bdl_loop_config chunkOf _ _ npw _ _ 0
    · rw [if_neg h2]
      cases hs : setup_bdle chunkOf 300 { dev with frags := 0 } 0
          (azx_pos_adj_bytes p rate fb) !npw with
      | ok dev2 ofs2 =>
          have hc := (setup_bdle_config chunkOf 300 { dev with frags := 0 } 0 _ _).1
            dev2 ofs2 hs
          have hrec := bdl_loop_config chunkOf dev.period_bytes
            (azx_pos_adj_bytes p rate fb) npw (dev.bufsize / dev.period_bytes) dev2 ofs2
          exact ⟨hrec.1.trans hc.1, hrec.2.1.trans hc.2.1, hrec.2.2.trans hc.2.2⟩
      | einval dev2 =>
          exact (setup_bdle_config chunkOf 300 { dev with frags := 0 } 0 _ _).2 dev2 hs
      | nofuel =>
          exact ⟨rfl, rfl, rfl⟩
  · rw [if_neg h1]
    exact bdl_loop_config chunkOf _ _ npw _ _ 0

theorem azx_setup_periods_code (chunkOf : Nat → Nat → Nat) (p : Int)
    (rate fb : Nat) (npw : Bool) (dev : AzxDev) :
    (azx_setup_periods chunkOf p rate fb npw dev).1 = 0 ∨
    (azx_setup_periods chunkOf p rate fb npw dev).1 = -22 := by
  unfold azx_setup_periods
  dsimp only
  by_cases h1 : 0 < p
  · rw [if_pos h1]
    by_cases h2 : dev.period_bytes ≤ azx_pos_adj_bytes p rate fb
    · rw [if_pos h2]
      exact bdl_loop_code chunkOf _ _ npw _ _ 0
    · rw [if_neg h2]
      cases hs : setup_bdle chunkOf 300 { dev with frags := 0 } 0
          (azx_pos_adj_bytes p rate fb) !npw with
      | ok dev2 ofs2 =>
          exact bdl_loop_code chunkOf dev.period_bytes
            (azx_pos_adj_bytes p rate fb) npw (dev.bufsize / dev.period_bytes) dev2 ofs2
      | einval dev2 => exact Or.inr rfl
      | nofuel => exact Or.inr rfl
  · rw [if_neg h1]
    exact bdl_loop_code chunkOf _ _ npw _ _ 0

/-- Counterexample for C6: a reconfiguration from a previously stored
geometry (buffer 8, period 2, format 5) to an overflowing geometry
(buffer 300, period 1: 300 descriptor entries) fails with `-EINVAL`,
but the stream's stored configuration is the new geometry, not the
previous one. -/
theorem C6_counterexample :
    (azx_pcm_prepare exChunk 0 48000 4 false 300 1 5 ⟨8, 2, 5, 4⟩).1 = -22 ∧
    (azx_pcm_prepare exChunk 0 48000 4 false 300 1 5 ⟨8, 2, 5, 4⟩).2.bufsize = 300 ∧
    (azx_pcm_prepare exChunk 0 48000 4 false 300 1 5 ⟨8, 2, 5, 4⟩).2.period_bytes = 1 ∧
    (⟨8, 2, 5, 4⟩ : AzxDev).bufsize = 8 ∧ (300 : Nat) ≠ 8 := by
  decide

/-- C6 (amended): for every `configure` call whose requested geometry
has a failing descriptor-list construction (in particular one exceeding
the 256-entry maximum), the outcome splits on the change guard:
if the requested buffer size, period size or format value differs from
the stream's stored configuration, `configure` reports the overflow
fault `-EINVAL`, but the stored configuration has already been
overwritten with the new values, which remain stored after the
failure; if the requested values all equal the stored configuration
(as after a previous failed `configure` with the same geometry), the
change guard skips descriptor-list construction entirely and
`configure` returns success with the stream state unchanged. -/
theorem C6_overflow_keeps_new_config (chunkOf : Nat → Nat → Nat) (p : Int)
    (rate fb : Nat) (npw : Bool) (bufsize period_bytes format_val : Nat)
    (dev : AzxDev)
    (herr : (azx_setup_periods chunkOf p rate fb npw
      { dev with
        bufsize := bufsize
        period_bytes := period_bytes
        format_val := format_val }).1 < 0) :
    ((bufsize ≠ dev.bufsize ∨ period_bytes ≠ dev.period_bytes ∨
        format_val ≠ dev.format_val) →
      (azx_pcm_prepare chunkOf p rate fb npw bufsize period_bytes
        format_val dev).1 = -22 ∧
      (azx_pcm_prepare chunkOf p rate fb npw bufsize period_bytes
        format_val dev).2.bufsize = bufsize ∧
      (azx_pcm_prepare chunkOf p rate fb npw bufsize period_bytes
        format_val dev).2.period_bytes = period_bytes ∧
      (azx_pcm_prepare chunkOf p rate fb npw bufsize period_bytes
        format_val dev).2.format_val = format_val) ∧
    (bufsize = dev.bufsize ∧ period_bytes = dev.period_bytes ∧
        format_val = dev.format_val →
      (azx_pcm_prepare chunkOf p rate fb npw bufsize period_bytes
        format_val dev).1 = 0 ∧
      (azx_pcm_prepare chunkOf p rate fb npw bufsize period_bytes
        format_val dev).2 = dev) := by
  constructor
  · intro hdiff
    have hcode := azx_setup_periods_code chunkOf p rate fb npw
      { dev with
        bufsize := bufsize
        period_bytes := period_bytes
        format_val := format_val }
    have h22 : (azx_setup_periods chunkOf p rate fb npw
        { dev with
          bufsize := bufsize
          period_bytes := period_bytes
          format_val := format_val }).1 = -22 := by
      rcases hcode with h | h
      · rw [h] at herr
        exact absurd herr (by decide)
      · exact h
    have hcfg := azx_setup_periods_config chunkOf p rate fb npw
      { dev with
        bufsize := bufsize
        period_bytes := period_bytes
        format_val := format_val }
    unfold azx_pcm_prepare
    dsimp only
    rw [if_pos hdiff, if_pos herr]
    exact ⟨h22, hcfg.1, hcfg.2.1, hcfg.2.2⟩
  · intro hsame
    unfold azx_pcm_prepare
    dsimp only
    rw [if_neg (by simp [hsame.1, hsame.2.1, hsame.2.2])]
    exact ⟨rfl, rfl⟩

/-- Witness for the amended C6 at the concrete overflowing geometry,
exercising both arms: the first configure differs from the stored
configuration, fails with `-EINVAL` and stores the new geometry; the
repeated configure with the identical stored geometry is skipped by the
change guard and returns success. -/
theorem C6_overflow_keeps_new_config_witness :
    ((azx_pcm_prepare exChunk 0 48000 4 false 300 1 5 ⟨8, 2, 5, 4⟩).1 = -22 ∧
     (azx_pcm_prepare exChunk 0 48000 4 false 300 1 5 ⟨8, 2, 5, 4⟩).2.bufsize = 300 ∧
     (azx_pcm_prepare exChunk 0 48000 4 false 300 1 5 ⟨8, 2, 5, 4⟩).2.period_bytes = 1 ∧
     (azx_pcm_prepare exChunk 0 48000 4 false 300 1 5 ⟨8, 2, 5, 4⟩).2.format_val = 5) ∧
    ((azx_pcm_prepare exChunk 0 48000 4 false 300 1 5 ⟨300, 1, 5, 256⟩).1 = 0 ∧
     (azx_pcm_prepare exChunk 0 48000 4 false 300 1 5 ⟨300, 1, 5, 256⟩).2 =
       ⟨300, 1, 5, 256⟩) :=
  ⟨(C6_overflow_keeps_new_config exChunk 0 48000 4 false 300 1 5 ⟨8, 2, 5, 4⟩
      (by decide)).1 (by decide),
   (C6_overflow_keeps_new_config exChunk 0 48000 4 false 300 1 5 ⟨300, 1, 5, 256⟩
      (by decide)).2 ⟨rfl, rfl, rfl⟩⟩

/-! ### C7 to C10: position reporting and completion validation -/

theorem azx_via_get_position_state (env : PosEnv) (d : AzxPosDev) :
    (azx_via_get_position env d).2 = d ∨
    (azx_via_get_position env d).2 = { d with insufficient := false } := by
  unfold azx_via_get_position
  dsimp only
  by_cases h1 : d.is_playback = true
  · rw [if_pos h1]
    exact Or.inl rfl
  · rw [if_neg h1]
    by_cases h2 : d.insufficient = true ∧ env.lpib % U32 ≤ env.via_fifo % 65536
    · rw [if_pos h2]
      exact Or.inl rfl
    · rw [if_neg h2]
      dsimp only
      by_cases h3 : d.insufficient = true
      · rw [if_pos h3]
        exact Or.inr rfl
      · rw [if_neg h3]
        exact Or.inl rfl

theorem raw_state_frame (wc : Bool) (env : PosEnv) (d : AzxPosDev) :
    (azx_get_position_raw wc env d).2.bufsize = d.bufsize ∧
    (azx_get_position_raw wc env d).2.start_wallclk = d.start_wallclk ∧
    (azx_get_position_raw wc env d).2.period_bytes = d.period_bytes ∧
    (azx_get_position_raw wc env d).2.period_wallclk = d.period_wallclk := by
  unfold azx_get_position_raw
  dsimp only
  by_cases h1 : d.position_fix = POS_FIX_LPIB
  · rw [if_pos h1]
    exact ⟨rfl, rfl, rfl, rfl⟩
  · rw [if_neg h1]
    by_cases h2 : d.position_fix = POS_FIX_VIACOMBO
    · rw [if_pos h2]
      rcases azx_via_get_position_state env d with h | h <;> rw [h] <;>
        exact ⟨rfl, rfl, rfl, rfl⟩
    · rw [if_neg h2]
      by_cases h3 : wc = true ∧ d.position_fix = POS_FIX_AUTO
      · rw [if_pos h3]
        by_cases h4 : env.posbuf % U32 = 0 ∨ env.posbuf % U32 = U32 - 1
        · rw [if_pos h4]
          exact ⟨rfl, rfl, rfl, rfl⟩
        · rw [if_neg h4]
          exact ⟨rfl, rfl, rfl, rfl⟩
      · rw [if_neg h3]
        exact ⟨rfl, rfl, rfl, rfl⟩

theorem pos_snd_eq_raw_snd (wc : Bool) (env : PosEnv) (d : AzxPosDev) :
    (azx_get_position wc env d).2 = (azx_get_position_raw wc env d).2 := rfl

theorem via_position_fix (env : PosEnv) (d : AzxPosDev) :
    (azx_via_get_position env d).2.position_fix = d.position_fix := by
  rcases azx_via_get_position_state env d with h | h <;> rw [h]

theorem raw_mode_ne_auto (wc : Bool) (env : PosEnv) (d : AzxPosDev)
    (h : d.position_fix ≠ POS_FIX_AUTO) :
    (azx_get_position_raw wc env d).2.position_fix = d.position_fix := by
  unfold azx_get_position_raw
  dsimp only
  by_cases h1 : d.position_fix = POS_FIX_LPIB
  · rw [if_pos h1]
  · rw [if_neg h1]
    by_cases h2 : d.position_fix = POS_FIX_VIACOMBO
    · rw [if_pos h2]
      exact via_position_fix env d
    · rw [if_neg h2]
      rw [if_neg (fun hc => h hc.2)]

theorem raw_mode_auto_checked (env : PosEnv) (d : AzxPosDev)
    (h : d.position_fix = POS_FIX_AUTO) :
    (azx_get_position_raw true env d).2.position_fix =
      if env.posbuf % U32 = 0 ∨ env.posbuf % U32 = U32 - 1
      then POS_FIX_LPIB else POS_FIX_POSBUF := by
  unfold azx_get_position_raw
  dsimp only
  rw [if_neg (by rw [h]; decide), if_neg (by rw [h]; decide), if_pos ⟨rfl, h⟩]
  by_cases hp : env.posbuf % U32 = 0 ∨ env.posbuf % U32 = U32 - 1
  · rw [if_pos hp, if_pos hp]
  · rw [if_neg hp, if_neg hp]

theorem raw_mode_auto_unchecked (env : PosEnv) (d : AzxPosDev)
    (h : d.position_fix = POS_FIX_AUTO) :
    (azx_get_position_raw false env d).2.position_fix = d.position_fix := by
  unfold azx_get_position_raw
  dsimp only
  rw [if_neg (by rw [h]; decide), if_neg (by rw [h]; decide),
    if_neg (fun hc => Bool.false_ne_true hc.1)]

theorem posReadStep_mode_ne_auto (d : AzxPosDev) (r : PosRead)
    (h : d.position_fix ≠ POS_FIX_AUTO) :
    (posReadStep d r).position_fix = d.position_fix :=
  raw_mode_ne_auto r.with_check r.env d h

theorem runPosReads_nil (d : AzxPosDev) : runPosReads [] d = d := rfl

theorem runPosReads_cons (r : PosRead) (rs : List PosRead) (d : AzxPosDev) :
    runPosReads (r :: rs) d = runPosReads rs (posReadStep d r) := rfl

theorem runPosReads_stable (rs : List PosRead) (d : AzxPosDev)
    (h : d.position_fix ≠ POS_FIX_AUTO) :
    (runPosReads rs d).position_fix = d.position_fix := by
  induction rs generalizing d with
  | nil => rfl
  | cons r rs ih =>
      rw [runPosReads_cons]
      have hstep := posReadStep_mode_ne_auto d r h
      have := ih (posReadStep d r) (by rw [hstep]; exact h)
      rw [this, hstep]

theorem runPosReads_unchecked (rs : List PosRead) (d : AzxPosDev)
    (hrs : ∀ x ∈ rs, x.with_check = false) (h : d.position_fix = POS_FIX_AUTO) :
    (runPosReads rs d).position_fix = POS_FIX_AUTO := by
  induction rs generalizing d with
  | nil => exact h
  | cons r rs ih =>
      rw [runPosReads_cons]
      have hr : r.with_check = false := hrs r (List.mem_cons_self _ _)
      have hstep : (posReadStep d r).position_fix = POS_FIX_AUTO := by
        show (azx_get_position r.with_check r.env d).2.position_fix = POS_FIX_AUTO
        rw [pos_snd_eq_raw_snd, hr, raw_mode_auto_unchecked r.env d h]
        exact h
      exact ih (posReadStep d r) (fun x hx => hrs x (List.mem_cons_of_mem _ hx)) hstep

theorem numChanges_modeTrace_cons (r : PosRead) (rs : List PosRead) (d : AzxPosDev) :
    numChanges (modeTrace (r :: rs) d) =
      (if d.position_fix = (posReadStep d r).position_fix then 0 else 1) +
        numChanges (modeTrace rs (posReadStep d r)) := by
  cases rs <;> rfl

theorem numChanges_modeTrace_stable (rs : List PosRead) (d : AzxPosDev)
    (h : d.position_fix ≠ POS_FIX_AUTO) : numChanges (modeTrace rs d) = 0 := by
  induction rs generalizing d with
  | nil => rfl
  | cons r rs ih =>
      rw [numChanges_modeTrace_cons]
      have hstep := posReadStep_mode_ne_auto d r h
      have htail := ih (posReadStep d r) (by rw [hstep]; exact h)
      rw [htail, if_pos hstep.symm]

theorem numChanges_modeTrace_auto (rs : List PosRead) (d : AzxPosDev)
    (h : d.position_fix = POS_FIX_AUTO) : numChanges (modeTrace rs d) ≤ 1 := by
  induction rs generalizing d with
  | nil => exact Nat.zero_le 1
  | cons r rs ih =>
      rw [numChanges_modeTrace_cons]
      by_cases hz : (posReadStep d r).position_fix = POS_FIX_AUTO
      · have htail := ih (posReadStep d r) hz
        rw [if_pos (by rw [h, hz])]
        omega
      · have htail := numChanges_modeTrace_stable rs (posReadStep d r) hz
        rw [htail]
        by_cases hc : d.position_fix = (posReadStep d r).position_fix
        · rw [if_pos hc]
          omega
        · rw [if_neg hc]

/-- C9: starting from `POS_FIX_AUTO`, the position-fix mode of a stream
direction changes at most once along any sequence of position reads;
the first checked read (after any number of unchecked reads) commits it
to `POS_FIX_LPIB` exactly when the position-buffer value is implausible
(zero or all-ones) and to `POS_FIX_POSBUF` otherwise, and no later read
changes the mode again. -/
theorem C9_autodetect_commits_once (rs : List PosRead) (d : AzxPosDev)
    (h : d.position_fix = POS_FIX_AUTO) :
    numChanges (modeTrace rs d) ≤ 1 ∧
    (∀ pre r post, rs = pre ++ r :: post →
      (∀ x ∈ pre, x.with_check = false) → r.with_check = true →
      (runPosReads (pre ++ [r]) d).position_fix =
        (if r.env.posbuf % U32 = 0 ∨ r.env.posbuf % U32 = U32 - 1
         then POS_FIX_LPIB else POS_FIX_POSBUF) ∧
      ∀ rs2, (runPosReads rs2 (runPosReads (pre ++ [r]) d)).position_fix =
        (runPosReads (pre ++ [r]) d).position_fix) := by
  constructor
  · exact numChanges_modeTrace_auto rs d h
  · intro pre r post _ hpre hr
    have hmid : (runPosReads pre d).position_fix = POS_FIX_AUTO :=
      runPosReads_unchecked pre d hpre h
    have happ : runPosReads (pre ++ [r]) d = posReadStep (runPosReads pre d) r := by
      unfold runPosReads
      rw [List.foldl_append]
      rfl
    have hstep : (posReadStep (runPosReads pre d) r).position_fix =
        (if r.env.posbuf % U32 = 0 ∨ r.env.posbuf % U32 = U32 - 1
         then POS_FIX_LPIB else POS_FIX_POSBUF) := by
      show (azx_get_position r.with_check r.env _).2.position_fix = _
      rw [pos_snd_eq_raw_snd, hr, raw_mode_auto_checked r.env _ hmid]
    constructor
    · rw [happ]
      exact hstep
    · intro rs2
      apply runPosReads_stable
      rw [happ, hstep]
      by_cases hp : r.env.posbuf % U32 = 0 ∨ r.env.posbuf % U32 = U32 - 1
      · rw [if_pos hp]
        decide
      · rw [if_neg hp]
        decide

/-- Witness for C9 at a concrete read sequence: one unchecked read,
then a checked read observing a zero position buffer. -/
theorem C9_autodetect_commits_once_witness :
    numChanges (modeTrace exReads9 exDev9) ≤ 1 :=
  (C9_autodetect_commits_once exReads9 exDev9 rfl).1

/-- C10: with a nonzero buffer size, every position read returns a byte
offset strictly below the buffer size, and any raw position at or above
the buffer size (including the all-ones invalid read) is clamped to
zero. -/
theorem C10_position_clamped (wc : Bool) (env : PosEnv) (d : AzxPosDev)
    (h : 0 < d.bufsize) :
    (azx_get_position wc env d).1 < d.bufsize ∧
    (d.bufsize ≤ (azx_get_position_raw wc env d).1 →
      (azx_get_position wc env d).1 = 0) := by
  have hb := (raw_state_frame wc env d).1
  have h1 : (azx_get_position wc env d).1 =
      if d.bufsize ≤ (azx_get_position_raw wc env d).1 then 0
      else (azx_get_position_raw wc env d).1 := by
    unfold azx_get_position
    dsimp only
    rw [hb]
  constructor
  · rw [h1]
    by_cases hc : d.bufsize ≤ (azx_get_position_raw wc env d).1
    · rw [if_pos hc]
      exact h
    · rw [if_neg hc]
      exact lt_of_not_le hc
  · intro hge
    rw [h1, if_pos hge]

/-- Witness for C10 at a concrete all-ones position-buffer read. -/
theorem C10_position_clamped_witness :
    (azx_get_position true exEnv10 exDev10).1 < exDev10.bufsize ∧
    (exDev10.bufsize ≤ (azx_get_position_raw true exEnv10 exDev10).1 →
      (azx_get_position true exEnv10 exDev10).1 = 0) :=
  C10_position_clamped true exEnv10 exDev10 (by decide)

/-- Counterexample for C7: a completion check inside the claimed window
(elapsed equal to one period's ticks, position past the period
midpoint) with a nonzero position-correction offset returns 0 ("not
yet", deferred retry), not 1 (accept), and leaves the start-tick
baseline unchanged rather than resynchronising it. -/
theorem C7_counterexample :
    ¬ posElapsed exEnv7 exDev7 < exDev7.period_wallclk * 2 % U32 / 3 ∧
    posElapsed exEnv7 exDev7 < exDev7.period_wallclk * 5 % U32 / 4 ∧
    exDev7.period_bytes / 2 <
      (azx_get_position true exEnv7 exDev7).1 % exDev7.period_bytes ∧
    (32 : Int) ≠ 0 ∧
    (azx_position_ok 32 exEnv7 exDev7).1 = 0 ∧
    (azx_position_ok 32 exEnv7 exDev7).1 ≠ 1 ∧
    (azx_position_ok 32 exEnv7 exDev7).2.start_wallclk = exDev7.start_wallclk := by
  decide

/-- C7 (amended): in the window (elapsed at least 2/3 but below 5/4 of
one period's ticks, read position past the period midpoint), the
evaluation never accepts: with a nonzero position-correction offset it
rejects the completion as "not yet" (code 0, deferred to the retry
worker), with a zero offset it rejects it as a bogus too-early
interrupt (code -1, dropped); in both cases the start-tick baseline is
unchanged. -/
theorem C7_window_defers_or_drops (adj : Int) (env : PosEnv) (d : AzxPosDev)
    (h0 : d.period_bytes ≠ 0)
    (hlo : ¬ posElapsed env d < d.period_wallclk * 2 % U32 / 3)
    (hhi : posElapsed env d < d.period_wallclk * 5 % U32 / 4)
    (hpos : d.period_bytes / 2 <
      (azx_get_position true env d).1 % d.period_bytes) :
    azx_position_ok adj env d =
      ((if adj ≠ 0 then 0 else -1), (azx_get_position true env d).2) ∧
    (azx_position_ok adj env d).2.start_wallclk = d.start_wallclk := by
  have heq : azx_position_ok adj env d =
      ((if adj ≠ 0 then 0 else -1), (azx_get_position true env d).2) := by
    unfold azx_position_ok
    dsimp only
    rw [if_neg hlo, if_neg h0, if_pos ⟨hhi, hpos⟩]
  refine ⟨heq, ?_⟩
  rw [heq]
  show (azx_get_position true env d).2.start_wallclk = d.start_wallclk
  rw [pos_snd_eq_raw_snd]
  exact (raw_state_frame true env d).2.1

/-- Witness for the amended C7 at the concrete in-window state. -/
theorem C7_window_defers_or_drops_witness :
    azx_position_ok 32 exEnv7 exDev7 =
      ((if (32 : Int) ≠ 0 then 0 else -1), (azx_get_position true exEnv7 exDev7).2) ∧
    (azx_position_ok 32 exEnv7 exDev7).2.start_wallclk = exDev7.start_wallclk :=
  C7_window_defers_or_drops 32 exEnv7 exDev7 (by decide) (by decide) (by decide)
    (by decide)

/-- Counterexample for C8: with an expected period tick count of 4 and
elapsed ticks 2 (exactly half), the integer-truncated too-early bound
`(4*2)/3 = 2` is not exceeded, so the completion is accepted (code 1)
and the start-tick baseline is advanced, contradicting "always rejects
with no state change". -/
theorem C8_counterexample :
    exDev8.period_wallclk = 2 * 2 ∧ exDev8.period_wallclk ≠ 0 ∧
    posElapsed exEnv8 exDev8 = 2 ∧
    (azx_position_ok 0 exEnv8 exDev8).1 = 1 ∧
    (azx_position_ok 0 exEnv8 exDev8).2.start_wallclk ≠ exDev8.start_wallclk := by
  decide

/-- C8 (amended): for a stream whose expected period tick count is an
even number `2*m` with `m ≥ 3` and `4*m < 2^32`, a completion check
whose elapsed ticks equal half the expected period tick count is
rejected as a too-early spurious interrupt (code -1) with the stream
state unchanged, regardless of the reported position and of the
position-correction offset. -/
theorem C8_too_early_reject (adj : Int) (env : PosEnv) (d : AzxPosDev) (m : Nat)
    (hm : 3 ≤ m) (hp : d.period_wallclk = 2 * m) (hov : 4 * m < U32)
    (hel : posElapsed env d = m) :
    azx_position_ok adj env d = (-1, d) := by
  have hcond : posElapsed env d < d.period_wallclk * 2 % U32 / 3 := by
    rw [hel, hp]
    have h4 : 2 * m * 2 = 4 * m := by ring
    rw [h4, Nat.mod_eq_of_lt hov]
    have h5 : (m + 1) * 3 ≤ 4 * m := by omega
    exact Nat.lt_of_lt_of_le (Nat.lt_succ_self m)
      ((Nat.le_div_iff_mul_le (by decide)).2 h5)
  unfold azx_position_ok
  dsimp only
  rw [if_pos hcond]

/-- Witness for the amended C8 at period tick count 6 and elapsed
ticks 3. -/
theorem C8_too_early_reject_witness :
    azx_position_ok 7 exEnv8w exDev8w = (-1, exDev8w) :=
  C8_too_early_reject 7 exEnv8w exDev8w 3 (by decide) (by decide) (by decide)
    (by decide)

end HdaIntel
